import Mathlib

set_option maxRecDepth 4000

/-!
Shallow embedding of the latency-based IP geolocation tool
(`src/measure.ts`, `src/analyze.ts`, `src/index.ts`, `web/src/server.ts`).

RTT values are modelled as rationals (`ℚ`); the JavaScript value `Infinity`
used by the continent phase is modelled as `Option ℚ` with `none` standing
for `Infinity`.  Missing (`undefined`/`null`) fields are modelled as
`Option`, matching JavaScript truthiness checks such as `!result.hops`.
Network interaction is modelled by passing the service's responses as
explicit data: a `while (true)` poll loop becomes a function consuming the
finite list of successive `getMeasurement` responses.
-/

namespace GeoTool

/-- One traceroute result of one probe (`item.result` in the source):
a status string and, when present, a list of hops, each hop carrying an
optional list of timing `rtt` values (`hop.timings.map(t => t.rtt)`). -/
structure TraceResult where
  status : String
  hops : Option (List (Option (List ℚ)))
deriving DecidableEq

/-- `Math.min(...l)` on a nonempty list; the `[]` case is never used by the
code (it is guarded by `length > 0` checks). -/
def listMin : List ℚ → ℚ
  | [] => 0
  | x :: xs => xs.foldl min x

/-- `l.reduce((a, b) => a + b, 0) / l.length`. -/
def listAvg (l : List ℚ) : ℚ :=
  l.sum / (l.length : ℚ)

/-- The positive rtt values of one hop:
`hop.timings.map(t => t.rtt).filter(rtt => rtt > 0)`, with `[]` when the
`timings` field is absent or empty. -/
def hopPositiveRtts : Option (List ℚ) → List ℚ
  | none => []
  | some ts => ts.filter (fun rtt => 0 < rtt)

/-- The backward scan of `extractLatencyFromTraceroute`: the source loop
`for (let i = hops.length - 1; i >= 0; i--)` is modelled by scanning
`hops.reverse` front to back.  A hop whose `timings` are missing or empty,
or whose positive-filtered rtts are empty, is skipped; the first hop with a
positive rtt yields `Math.min(...rtts)`. -/
def scanHopsRev : List (Option (List ℚ)) → Option ℚ
  | [] => none
  | hop :: rest =>
    match hopPositiveRtts hop with
    | [] => scanHopsRev rest
    | r :: rs => some (listMin (r :: rs))

/-- `extractLatencyFromTraceroute` (src/measure.ts lines 14-30): returns
`none` when `result.status !== 'finished' || !result.hops`; otherwise scans
hops from the last one backward. -/
def extractLatencyFromTraceroute (result : TraceResult) : Option ℚ :=
  if result.status ≠ "finished" then none
  else
    match result.hops with
    | none => none
    | some hops => scanHopsRev hops.reverse

/-- The location fields of a probe (`item.probe`); `city` and `state` are
optional in the service's payload. -/
structure Probe where
  country : String
  city : Option String
  state : Option String
deriving DecidableEq

/-- One entry of `data.results`: the probe and its traceroute result. -/
structure ResultItem where
  probe : Probe
  result : TraceResult
deriving DecidableEq

/-- The `ProbeResult` interface of src/measure.ts. -/
structure ProbeResult where
  country : String
  city : String
  state : Option String
  minRtt : ℚ
  avgRtt : ℚ
  probeAsn : Nat
  probeNetwork : String
deriving DecidableEq

/-- JavaScript `s || d` on an optional string: `undefined` and the empty
string are falsy. -/
def jsOr (s : Option String) (d : String) : String :=
  match s with
  | none => d
  | some v => if v = "" then d else v

/-- Grouping key of the country phase: `item.probe.country`. -/
def countryKey (p : Probe) : String := p.country

/-- Grouping key of the city phases: `item.probe.city || 'Unknown'`. -/
def cityKey (p : Probe) : String := jsOr p.city "Unknown"

/-- Grouping key of the US-state phase: `item.probe.state || 'Unknown'`. -/
def stateKey (p : Probe) : String := jsOr p.state "Unknown"

/-- Insertion into the per-key latency map (`Map<string, number[]>` with
JavaScript `Map` insertion-order semantics): append to an existing key's
array, otherwise add a new singleton group at the end. -/
def addToGroups : List (String × List ℚ) → String → ℚ → List (String × List ℚ)
  | [], k, v => [(k, [v])]
  | (k0, vs) :: rest, k, v =>
    if k0 = k then (k0, vs ++ [v]) :: rest
    else (k0, vs) :: addToGroups rest k v

/-- One iteration of the grouping pass: extract a latency from the item
and, when one exists, push it into the group of `keyFn item.probe`;
an item without a usable latency is dropped silently. -/
def aggStep (keyFn : Probe → String) (gs : List (String × List ℚ))
    (it : ResultItem) : List (String × List ℚ) :=
  match extractLatencyFromTraceroute it.result with
  | none => gs
  | some l => addToGroups gs (keyFn it.probe) l

/-- The grouping pass shared by the country/state/city phases
(`for (const item of data.results) ...`). -/
def aggregate (keyFn : Probe → String) (items : List ResultItem) : List (String × List ℚ) :=
  items.foldl (aggStep keyFn) []

/-- One step of the stable ascending sort `arr.sort((a, b) => key a - key b)`. -/
def insertByKey {α : Type} (key : α → ℚ) (r : α) : List α → List α
  | [] => [r]
  | x :: xs => if key r ≤ key x then r :: x :: xs else x :: insertByKey key r xs

/-- Stable ascending sort by a rational-valued key, modelling
`arr.sort((a, b) => key a - key b)`. -/
def sortByKey {α : Type} (key : α → ℚ) (l : List α) : List α :=
  l.foldr (insertByKey key) []

/-- The reduction + ranking of the country phase (src/measure.ts lines
177-205): one `ProbeResult` per country group with `minRtt`/`avgRtt`, then
sort ascending by `minRtt`. -/
def countryCandidates (items : List ResultItem) : List ProbeResult :=
  sortByKey ProbeResult.minRtt
    ((aggregate countryKey items).map fun g =>
      ⟨g.1, "", none, listMin g.2, listAvg g.2, 0, ""⟩)

/-- The reduction + ranking of the city phases (src/measure.ts lines
295-323 and 514-543), scoped to the given country and optional state. -/
def cityCandidates (country : String) (state : Option String)
    (items : List ResultItem) : List ProbeResult :=
  sortByKey ProbeResult.minRtt
    ((aggregate cityKey items).map fun g =>
      ⟨country, g.1, state, listMin g.2, listAvg g.2, 0, ""⟩)

/-- The reduction + ranking of the US-state phase (src/measure.ts lines
395-424): candidates carry country `"US"` and the state as key. -/
def stateCandidates (items : List ResultItem) : List ProbeResult :=
  sortByKey ProbeResult.minRtt
    ((aggregate stateKey items).map fun g =>
      ⟨"US", "", some g.1, listMin g.2, listAvg g.2, 0, ""⟩)

/-- A failed service response (`result.ok === false`): the HTTP status
(429 signals rate-limiting) and the diagnostic payload that the source
embeds via `JSON.stringify(result.data)`. -/
structure ApiError where
  status : Nat
  payload : String
deriving DecidableEq

/-- The outcome of one per-continent sub-measurement inside
`measureContinents`: the `createMeasurement` call fails, the
`awaitMeasurement` call fails, or the awaited measurement's result items
are obtained. -/
inductive SubOutcome where
  | createFailed (err : ApiError)
  | awaitFailed (err : ApiError)
  | results (items : List ResultItem)
deriving DecidableEq

/-- `avgLatency` computed for one continent by `measureContinents`
(src/measure.ts lines 40-66): `none` models `Infinity`, produced on any
failed call or when no item yields a latency. -/
def continentAvgLatency : SubOutcome → Option ℚ
  | SubOutcome.createFailed _ => none
  | SubOutcome.awaitFailed _ => none
  | SubOutcome.results items =>
    let latencies := items.filterMap fun it => extractLatencyFromTraceroute it.result
    if latencies.length > 0 then some (listAvg latencies) else none

/-- The `measurements` array of `measureContinents`: one
`(continent, avgLatency)` entry per continent outcome. -/
def continentMeasurements (outcomes : List (String × SubOutcome)) :
    List (String × Option ℚ) :=
  outcomes.map fun o => (o.1, continentAvgLatency o.2)

/-- `measurements.filter(m => m.avgLatency !== Infinity)`: the continents
whose average is finite, carrying the finite value. -/
def continentFinite (outcomes : List (String × SubOutcome)) : List (String × ℚ) :=
  (continentMeasurements outcomes).filterMap fun m => m.2.map fun a => (m.1, a)

/-- `measureContinents` (src/measure.ts lines 32-82) as a function of the
service's per-continent outcomes: compute each continent's `avgLatency`,
drop the `Infinity` ones, sort ascending by average and take the first;
throw `'No successful measurements from any continent'` when none is
left. -/
def measureContinents (outcomes : List (String × SubOutcome)) :
    Except String (String × ℚ) :=
  match sortByKey Prod.snd (continentFinite outcomes) with
  | [] => Except.error "No successful measurements from any continent"
  | best :: _ => Except.ok best

/-- The payload of a successful `createMeasurement` response. -/
structure CreateData where
  id : String
  probesCount : Nat
deriving DecidableEq

/-- The payload of a successful `getMeasurement` response. -/
structure MeasData where
  status : String
  results : List ResultItem
deriving DecidableEq

/-- The `while (true)` poll loop shared by `measureCountries`,
`measureCities`, `measureUSStates` and `measureUSCities`, as a function of
the successive `getMeasurement` responses: a failed response throws
`'Failed to get measurement: ...'`; a successful response breaks the loop
iff `data.status === 'finished'`, otherwise the loop sleeps and re-fetches.
`Except.ok none` means the given responses were exhausted with the loop
still polling. -/
def pollLoop : List (Except ApiError MeasData) → Except String (Option MeasData)
  | [] => Except.ok none
  | Except.error e :: _ => Except.error ("Failed to get measurement: " ++ e.payload)
  | Except.ok d :: rest =>
    if d.status = "finished" then Except.ok (some d) else pollLoop rest

/-- `measureCountries` (src/measure.ts lines 106-223) as a function of the
service's responses: a failed `createMeasurement` throws
`'Failed to create measurement: ...'`; then the poll loop runs and, once it
breaks, the final data is aggregated into the ranked country candidates. -/
def measureCountriesRun (createResp : Except ApiError CreateData)
    (polls : List (Except ApiError MeasData)) :
    Except String (Option (List ProbeResult)) :=
  match createResp with
  | Except.error e => Except.error ("Failed to create measurement: " ++ e.payload)
  | Except.ok _ =>
    match pollLoop polls with
    | Except.error msg => Except.error msg
    | Except.ok none => Except.ok none
    | Except.ok (some d) => Except.ok (some (countryCandidates d.results))

/-- The phases that `runMeasurements` may enter after the country phase. -/
inductive Phase where
  | state
  | city
deriving DecidableEq

/-- The results the later phases would return, as a function of their
scope parameter: `stateResults` is what `measureUSStates` returns,
`usCityResults s` what `measureUSCities` scoped to state `s` returns, and
`cityResults c` what `measureCities` scoped to country `c` returns. -/
structure OrchestratorEnv where
  stateResults : List ProbeResult
  usCityResults : Option String → List ProbeResult
  cityResults : String → List ProbeResult

/-- The phase dispatch of `runMeasurements` (src/measure.ts lines 546-571)
after the country phase, returning the list of later phases entered and
the final result list.  `countryResults[0].state!` is modelled by passing
the winner's optional `state` field through unchanged (the TypeScript `!`
assertion is erased at runtime). -/
def orchestrate (countryResults : List ProbeResult) (env : OrchestratorEnv) :
    List Phase × List ProbeResult :=
  match countryResults with
  | [] => ([], countryResults)
  | best :: _ =>
    if best.country = "US" then
      match env.stateResults with
      | [] => ([Phase.state], env.stateResults)
      | s :: _ => ([Phase.state, Phase.city], env.usCityResults s.state)
    else
      ([Phase.city], env.cityResults best.country)

/-- The confidence classification printed by `printResults`
(src/index.ts lines 71-79 and web/src/server.ts lines 145-153). -/
def confidenceLabel (minRtt : ℚ) : String :=
  if minRtt < 1 then "Very High"
  else if minRtt < 5 then "High"
  else if minRtt < 20 then "Medium"
  else "Low"

/-- The confidence line printed by `printResults` for a result list:
nothing for an empty list, otherwise the label of `results[0].minRtt`. -/
def printResultsConfidence : List ProbeResult → Option String
  | [] => none
  | best :: _ => some (confidenceLabel best.minRtt)

/-- The three-tier confidence scale of `analyzeResults` (src/analyze.ts). -/
def analyzeConfidence (minRtt : ℚ) : String :=
  if minRtt < 1 then "high"
  else if minRtt < 10 then "medium"
  else "low"

/-- The `GeolocationResult` interface of src/analyze.ts, with the
confidence union type modelled as a string. -/
structure GeolocationResult where
  detectedCountry : String
  detectedCity : String
  confidence : String
  minRtt : ℚ
  allResults : List ProbeResult
deriving DecidableEq

/-- `analyzeResults` (src/analyze.ts): throws
`'No measurement results to analyze'` on an empty input, otherwise sorts a
copy ascending by `minRtt` and reports the first element.  (The source
checks `results.length === 0` before sorting; since the sort is a
permutation, matching on the sorted list is the same test.) -/
def analyzeResults (results : List ProbeResult) : Except String GeolocationResult :=
  match sortByKey ProbeResult.minRtt results with
  | [] => Except.error "No measurement results to analyze"
  | best :: rest =>
    Except.ok
      ⟨best.country, best.city, analyzeConfidence best.minRtt, best.minRtt,
        best :: rest⟩

/-- Decidable equality for `Except` values, so that concrete runs can be
checked by `decide`. -/
instance {ε α : Type} [DecidableEq ε] [DecidableEq α] : DecidableEq (Except ε α) := by
  intro a b
  cases a <;> cases b
  case error.error e1 e2 =>
    exact if h : e1 = e2 then isTrue (by rw [h]) else isFalse (by simp [h])
  case error.ok e1 a2 => exact isFalse (by simp)
  case ok.error a1 e2 => exact isFalse (by simp)
  case ok.ok a1 a2 =>
    exact if h : a1 = a2 then isTrue (by rw [h]) else isFalse (by simp [h])

/-! ## Concrete fixtures used by witnesses and counterexamples -/

/-- A finished sample with a positive timing at hop index 0 only and no
hop at index ≥ 2 at all. -/
def gateSample : TraceResult := ⟨"finished", some [some [5], none]⟩

/-- A finished sample: hop 0 has timing 10, hop 1 (the last hop with data)
has timings 0, 3 and 2, hop 2 has only the non-response timing -1. -/
def c8sample : TraceResult := ⟨"finished", some [some [10], some [0, 3, 2], some [-1]]⟩

/-- A finished sample whose hops carry only zero/negative timings or none
at all. -/
def deadSample : TraceResult := ⟨"finished", some [some [0, -1], none, some []]⟩

/-- A result item from a probe in `country` whose traceroute yields the
single latency `v`. -/
def mkItem (country : String) (v : ℚ) : ResultItem :=
  ⟨⟨country, none, none⟩, ⟨"finished", some [some [v]]⟩⟩

/-- Continent-phase outcomes in which the EU sub-request is rejected with
HTTP 429 while the NA sub-request succeeds. -/
def c2outcomes : List (String × SubOutcome) :=
  [("EU", SubOutcome.createFailed ⟨429, "Too Many Requests"⟩),
   ("NA", SubOutcome.results [mkItem "US" 5])]

/-- The six-continent scenario of the spec, in the source's `CONTINENTS`
order, with per-continent average RTTs
AF 257.46, AS 167.03, EU 123.12, NA 57.23, OC 172.49, SA 93.96. -/
def contOutcomes : List (String × SubOutcome) :=
  [("AF", SubOutcome.results [mkItem "" (25746/100)]),
   ("AS", SubOutcome.results [mkItem "" (16703/100)]),
   ("EU", SubOutcome.results [mkItem "" (12312/100)]),
   ("NA", SubOutcome.results [mkItem "" (5723/100)]),
   ("OC", SubOutcome.results [mkItem "" (17249/100)]),
   ("SA", SubOutcome.results [mkItem "" (9396/100)])]

/-- A `getMeasurement` payload with the terminal status `partial`. -/
def partialData : MeasData := ⟨"partial", []⟩

/-- A `getMeasurement` payload with status `finished`. -/
def finishedData : MeasData := ⟨"finished", []⟩

/-- Country-phase items: two US probes (2 ms and 4 ms) and one Canadian
probe (3 ms). -/
def c7items : List ResultItem := [mkItem "US" 2, mkItem "US" 4, mkItem "CA" 3]

/-- A country-phase winner with code `US`. -/
def prUS : ProbeResult := ⟨"US", "", none, mkRat 1 100, mkRat 1 100, 0, ""⟩

/-- A country-phase winner with code `DE`. -/
def prDE : ProbeResult := ⟨"DE", "", none, 5, 6, 0, ""⟩

/-- A state-phase winner: Florida at 0.26 ms. -/
def prFL : ProbeResult := ⟨"US", "", some "FL", mkRat 26 100, mkRat 26 100, 0, ""⟩

/-- The terminal-phase candidates of the spec's end-to-end scenario. -/
def miamiR : ProbeResult := ⟨"US", "Miami", some "FL", mkRat 1 100, mkRat 1 100, 0, ""⟩

def wpbR : ProbeResult := ⟨"US", "West Palm Beach", some "FL", mkRat 538 100, mkRat 538 100, 0, ""⟩

def tampaR : ProbeResult := ⟨"US", "Tampa", some "FL", mkRat 580 100, mkRat 580 100, 0, ""⟩

/-- Candidates with minimum latencies in the [1, 5) and [20, ∞) bands. -/
def prHigh : ProbeResult := ⟨"US", "Boston", some "MA", 3, 3, 0, ""⟩

def prLow : ProbeResult := ⟨"US", "Reno", some "NV", 25, 25, 0, ""⟩

/-- The spec's terminal candidate list Miami / West Palm Beach / Tampa. -/
def cityListFix : List ProbeResult := [miamiR, wpbR, tampaR]

/-- An orchestrator environment whose state phase finds Florida. -/
def envFix : OrchestratorEnv := ⟨[prFL], fun _ => cityListFix, fun _ => cityListFix⟩

/-- An orchestrator environment whose state phase finds no candidate. -/
def envEmptyState : OrchestratorEnv := ⟨[], fun _ => cityListFix, fun _ => cityListFix⟩

/-- Input of the `analyzeResults` scenario: Canada at 42.96 ms and Miami
at 0.01 ms. -/
def caR : ProbeResult := ⟨"CA", "Toronto", none, mkRat 4296 100, mkRat 4296 100, 0, ""⟩

def c10results : List ProbeResult := [caR, miamiR]

/-- The analysis expected for `c10results`. -/
def c10expected : GeolocationResult := ⟨"US", "Miami", "high", mkRat 1 100, [miamiR, caR]⟩

/-! ## Helper lemmas -/

theorem foldl_min_le_init (xs : List ℚ) : ∀ x : ℚ, xs.foldl min x ≤ x := by
  induction xs with
  | nil => intro x; simp
  | cons a t ih =>
    intro x
    calc (a :: t).foldl min x = t.foldl min (min x a) := by simp
    _ ≤ min x a := ih (min x a)
    _ ≤ x := min_le_left x a

theorem foldl_min_le_mem (xs : List ℚ) : ∀ x y : ℚ, y ∈ xs → xs.foldl min x ≤ y := by
  induction xs with
  | nil => intro x y hy; cases hy
  | cons a t ih =>
    intro x y hy
    rcases List.mem_cons.mp hy with rfl | hy2
    · calc (y :: t).foldl min x = t.foldl min (min x y) := by simp
      _ ≤ min x y := foldl_min_le_init t (min x y)
      _ ≤ y := min_le_right x y
    · simpa using ih (min x a) y hy2

theorem listMin_le {l : List ℚ} (y : ℚ) (hy : y ∈ l) : listMin l ≤ y := by
  match l with
  | [] => cases hy
  | x :: xs =>
    rcases List.mem_cons.mp hy with rfl | h
    · exact foldl_min_le_init xs y
    · exact foldl_min_le_mem xs x y h

theorem mul_length_le_sum (l : List ℚ) (m : ℚ) (h : ∀ y ∈ l, m ≤ y) :
    m * (l.length : ℚ) ≤ l.sum := by
  induction l with
  | nil => simp
  | cons a t ih =>
    have ha : m ≤ a := h a (List.mem_cons_self a t)
    have ht := ih fun y hy => h y (List.mem_cons_of_mem a hy)
    simp only [List.sum_cons, List.length_cons]
    push_cast
    nlinarith [ht, ha]

theorem listMin_le_listAvg {l : List ℚ} (h : l ≠ []) : listMin l ≤ listAvg l := by
  have hlen : 0 < (l.length : ℚ) := by
    have := List.length_pos.mpr h
    exact_mod_cast this
  rw [listAvg, le_div_iff₀ hlen]
  exact mul_length_le_sum l (listMin l) fun y hy => listMin_le y hy

theorem perm_insertByKey {α : Type} (key : α → ℚ) (r : α) (l : List α) :
    List.Perm (insertByKey key r l) (r :: l) := by
  induction l with
  | nil => simp [insertByKey]
  | cons x xs ih =>
    by_cases h : key r ≤ key x
    · simp [insertByKey, h]
    · simp only [insertByKey, if_neg h]
      exact List.Perm.trans (ih.cons x) (List.Perm.swap r x xs)

theorem perm_sortByKey {α : Type} (key : α → ℚ) (l : List α) :
    List.Perm (sortByKey key l) l := by
  induction l with
  | nil => simp [sortByKey]
  | cons x xs ih =>
    exact List.Perm.trans (perm_insertByKey key x (sortByKey key xs)) (ih.cons x)

theorem pairwise_insertByKey {α : Type} (key : α → ℚ) (r : α) (l : List α)
    (hl : l.Pairwise fun a b => key a ≤ key b) :
    (insertByKey key r l).Pairwise fun a b => key a ≤ key b := by
  induction l with
  | nil => simp [insertByKey]
  | cons x xs ih =>
    rcases List.pairwise_cons.mp hl with ⟨hx, hxs⟩
    by_cases h : key r ≤ key x
    · simp only [insertByKey, if_pos h]
      refine List.pairwise_cons.mpr ⟨?_, hl⟩
      intro b hb
      rcases List.mem_cons.mp hb with rfl | hb2
      · exact h
      · exact le_trans h (hx b hb2)
    · simp only [insertByKey, if_neg h]
      refine List.pairwise_cons.mpr ⟨?_, ih hxs⟩
      intro b hb
      have hb2 : b ∈ r :: xs := (perm_insertByKey key r xs).mem_iff.mp hb
      rcases List.mem_cons.mp hb2 with rfl | hb3
      · exact le_of_not_le h
      · exact hx b hb3

theorem pairwise_sortByKey {α : Type} (key : α → ℚ) (l : List α) :
    (sortByKey key l).Pairwise fun a b => key a ≤ key b := by
  induction l with
  | nil => simp [sortByKey]
  | cons x xs ih => exact pairwise_insertByKey key x (sortByKey key xs) ih

theorem sortByKey_head_le {α : Type} (key : α → ℚ) (l : List α) (b : α)
    (rest : List α) (h : sortByKey key l = b :: rest) :
    ∀ y ∈ l, key b ≤ key y := by
  intro y hy
  have hy2 : y ∈ b :: rest := by
    rw [← h]
    exact (perm_sortByKey key l).mem_iff.mpr hy
  rcases List.mem_cons.mp hy2 with rfl | hy3
  · exact le_refl (key y)
  · have hp := pairwise_sortByKey key l
    rw [h] at hp
    exact (List.pairwise_cons.mp hp).1 y hy3

theorem sortByKey_eq_nil_iff {α : Type} (key : α → ℚ) (l : List α) :
    sortByKey key l = [] ↔ l = [] := by
  constructor
  · intro h
    have hlen := (perm_sortByKey key l).length_eq
    rw [h] at hlen
    exact List.length_eq_zero.mp hlen.symm
  · intro h
    subst h
    rfl

theorem mem_sortByKey {α : Type} (key : α → ℚ) (l : List α) (a : α) :
    a ∈ sortByKey key l ↔ a ∈ l :=
  (perm_sortByKey key l).mem_iff

theorem addToGroups_sound (gs : List (String × List ℚ)) (k : String) (v : ℚ) :
    ∀ g ∈ addToGroups gs k v, g ∈ gs ∨ g.2 ≠ [] := by
  induction gs with
  | nil =>
    intro g hg
    simp only [addToGroups, List.mem_singleton] at hg
    subst hg
    right
    simp
  | cons p rest ih =>
    obtain ⟨k0, vs⟩ := p
    intro g hg
    by_cases h : k0 = k
    · simp only [addToGroups, if_pos h] at hg
      rcases List.mem_cons.mp hg with rfl | hg2
      · right; simp
      · left; exact List.mem_cons_of_mem _ hg2
    · simp only [addToGroups, if_neg h] at hg
      rcases List.mem_cons.mp hg with rfl | hg2
      · left; exact List.mem_cons_self _ _
      · rcases ih g hg2 with hmem | hne
        · left; exact List.mem_cons_of_mem _ hmem
        · right; exact hne

theorem aggStep_ne_nil (keyFn : Probe → String) (gs : List (String × List ℚ))
    (it : ResultItem) (hgs : ∀ g ∈ gs, g.2 ≠ []) :
    ∀ g ∈ aggStep keyFn gs it, g.2 ≠ [] := by
  intro g hg
  rw [aggStep] at hg
  cases hex : extractLatencyFromTraceroute it.result with
  | none =>
    rw [hex] at hg
    exact hgs g hg
  | some l =>
    rw [hex] at hg
    rcases addToGroups_sound gs (keyFn it.probe) l g hg with hmem | hne
    · exact hgs g hmem
    · exact hne

theorem foldl_aggStep_ne_nil (keyFn : Probe → String) (items : List ResultItem) :
    ∀ gs : List (String × List ℚ), (∀ g ∈ gs, g.2 ≠ []) →
      ∀ g ∈ items.foldl (aggStep keyFn) gs, g.2 ≠ [] := by
  induction items with
  | nil => intro gs hgs g hg; exact hgs g hg
  | cons it rest ih =>
    intro gs hgs g hg
    simp only [List.foldl_cons] at hg
    exact ih (aggStep keyFn gs it) (aggStep_ne_nil keyFn gs it hgs) g hg

theorem aggregate_groups_ne_nil (keyFn : Probe → String) (items : List ResultItem) :
    ∀ g ∈ aggregate keyFn items, g.2 ≠ [] :=
  foldl_aggStep_ne_nil keyFn items [] (by simp)

theorem scanHopsRev_all_empty (hs : List (Option (List ℚ)))
    (h : ∀ hop ∈ hs, hopPositiveRtts hop = []) : scanHopsRev hs = none := by
  induction hs with
  | nil => rfl
  | cons hop rest ih =>
    have h0 := h hop (List.mem_cons_self hop rest)
    simp only [scanHopsRev, h0]
    exact ih fun x hx => h x (List.mem_cons_of_mem hop hx)

theorem scanHopsRev_append (xs ys : List (Option (List ℚ)))
    (h : ∀ hop ∈ xs, hopPositiveRtts hop = []) :
    scanHopsRev (xs ++ ys) = scanHopsRev ys := by
  induction xs with
  | nil => rfl
  | cons hop rest ih =>
    have h0 := h hop (List.mem_cons_self hop rest)
    simp only [List.cons_append, scanHopsRev, h0]
    exact ih fun x hx => h x (List.mem_cons_of_mem hop hx)

theorem scanHopsRev_cons_pos (hop : Option (List ℚ)) (rest : List (Option (List ℚ)))
    (r : ℚ) (rs : List ℚ) (h : hopPositiveRtts hop = r :: rs) :
    scanHopsRev (hop :: rest) = some (listMin (r :: rs)) := by
  simp [scanHopsRev, h]

/-! ## Claims -/

/-- C1, counterexample: `gateSample` is a finished sample with no hop at
index ≥ 2 at all — hence no positive-valued timing at any hop of index
≥ 2 — whose hop 0 carries the positive timing 5.  The extractor returns
that value instead of discarding the sample: the claimed index ≥ 2
validity gate does not exist in `extractLatencyFromTraceroute`. -/
theorem extract_hop_gate_cex :
    gateSample.status = "finished"
    ∧ (gateSample.hops.getD []).drop 2 = []
    ∧ extractLatencyFromTraceroute gateSample = some 5 := by
  decide

/-- C1, amended: for every probe sample whose status is `finished` but
which has no positive-valued timing at any hop of any index (including
hops 0 and 1), the latency extractor returns no value; positive timings
at hop index 0 or 1 alone are enough to produce a value. -/
theorem extract_none_of_no_positive_hop (sample : TraceResult)
    (hs : List (Option (List ℚ))) (hstat : sample.status = "finished")
    (hhops : sample.hops = some hs)
    (hall : ∀ hop ∈ hs, hopPositiveRtts hop = []) :
    extractLatencyFromTraceroute sample = none := by
  rw [extractLatencyFromTraceroute, if_neg (by simp [hstat]), hhops]
  exact scanHopsRev_all_empty hs.reverse fun hop hmem => hall hop (List.mem_reverse.mp hmem)

/-- C1, witness: the amended theorem applied to `deadSample`, whose hops
carry only zero/negative timings or none at all. -/
theorem extract_none_of_no_positive_hop_witness :
    extractLatencyFromTraceroute deadSample = none :=
  extract_none_of_no_positive_hop deadSample [some [0, -1], none, some []]
    (by decide) (by decide) (by decide)

/-- C8: the extractor returns no value when the sample's status is not
`finished` or its hop data is absent; when the hop list splits as
`before ++ hop :: after` where `hop` has a positive timing and every hop
after it has none (so `hop` is the last hop with a positive timing), it
returns the minimum of that hop's positive timings; and the positive
filter drops zero and negative timing values before the minimum. -/
theorem extract_spec (sample : TraceResult) :
    (sample.status ≠ "finished" ∨ sample.hops = none →
      extractLatencyFromTraceroute sample = none)
    ∧ (∀ hs before hop after,
        sample.status = "finished" → sample.hops = some hs →
        hs = before ++ hop :: after →
        hopPositiveRtts hop ≠ [] →
        (∀ h2 ∈ after, hopPositiveRtts h2 = []) →
        extractLatencyFromTraceroute sample = some (listMin (hopPositiveRtts hop)))
    ∧ (∀ ts, hopPositiveRtts (some ts) = ts.filter fun rtt => 0 < rtt) := by
  refine ⟨?_, ?_, fun ts => rfl⟩
  · intro h
    rcases h with h | h
    · rw [extractLatencyFromTraceroute, if_pos h]
    · by_cases hstat : sample.status ≠ "finished"
      · rw [extractLatencyFromTraceroute, if_pos hstat]
      · rw [extractLatencyFromTraceroute, if_neg hstat, h]
  · intro hs before hop after hstat hhops hsplit hpos hafter
    rw [extractLatencyFromTraceroute, if_neg (by simp [hstat]), hhops]
    subst hsplit
    show scanHopsRev (before ++ hop :: after).reverse
      = some (listMin (hopPositiveRtts hop))
    rw [List.reverse_append, List.reverse_cons, List.append_assoc]
    rw [scanHopsRev_append after.reverse ([hop] ++ before.reverse)
      fun h2 hmem => hafter h2 (List.mem_reverse.mp hmem)]
    rcases hcase : hopPositiveRtts hop with _ | ⟨r, rs⟩
    · exact absurd hcase hpos
    · rw [List.singleton_append, scanHopsRev_cons_pos hop before.reverse r rs hcase]

/-- C8, witness: a sample that is not finished yields no value, and on
`c8sample` the last hop with a positive timing is hop 1 (timings 0, 3, 2),
whose filtered minimum is returned. -/
theorem extract_spec_witness :
    extractLatencyFromTraceroute ⟨"in-progress", none⟩ = none
    ∧ extractLatencyFromTraceroute c8sample
      = some (listMin (hopPositiveRtts (some [0, 3, 2]))) :=
  ⟨(extract_spec ⟨"in-progress", none⟩).1 (Or.inl (by decide)),
   (extract_spec c8sample).2.1 [some [10], some [0, 3, 2], some [-1]]
     [some [10]] (some [0, 3, 2]) [some [-1]]
     (by decide) (by decide) (by decide) (by decide) (by decide)⟩

/-- C2, counterexample: in the continent phase a sub-request rejected with
HTTP 429 is not surfaced as a fatal error: with the EU sub-request
rate-limited and the NA sub-request succeeding, `measureContinents`
completes normally and returns NA instead of aborting the run. -/
theorem continent_rate_limit_not_fatal_cex :
    ("EU", SubOutcome.createFailed ⟨429, "Too Many Requests"⟩) ∈ c2outcomes
    ∧ measureContinents c2outcomes = Except.ok ("NA", 5) := by
  with_unfolding_all decide

/-- C2, amended: in the country/state/city phases every fetch or
job-creation failure — in particular an HTTP 429 rate-limit response — is
thrown immediately as a fatal error carrying the service's payload, with
the remaining poll responses never consumed (no retry); in the continent
phase, however, a failed sub-request (including a 429) is swallowed as
`Infinity` ("no data") for that continent, and the run aborts only when
every continent fails. -/
theorem rate_limit_fatal_in_later_phases (e : ApiError)
    (polls rest : List (Except ApiError MeasData)) :
    measureCountriesRun (Except.error e) polls
      = Except.error ("Failed to create measurement: " ++ e.payload)
    ∧ pollLoop (Except.error e :: rest)
      = Except.error ("Failed to get measurement: " ++ e.payload)
    ∧ measureContinents c2outcomes = Except.ok ("NA", 5) :=
  ⟨rfl, rfl, by with_unfolding_all decide⟩

/-- C3, counterexample: a poll response whose top-level status is the
terminal value `partial` does not terminate the poll loop — the loop keeps
polling (exhausting the response list) instead of breaking with that
response, contrary to the claim that any departure from the in-progress
status terminates it. -/
theorem pollLoop_partial_status_cex :
    partialData.status = "partial"
    ∧ pollLoop [Except.ok partialData] = Except.ok none
    ∧ pollLoop [Except.ok partialData] ≠ Except.ok (some partialData) := by
  decide

/-- C3, amended: the poll loop breaks exactly when the fetched top-level
status equals `finished`; for every other status value — including the
terminal values `partial` and `timeout` — it sleeps and polls again. -/
theorem pollLoop_breaks_iff_finished (d : MeasData)
    (rest : List (Except ApiError MeasData)) :
    (d.status = "finished" → pollLoop (Except.ok d :: rest) = Except.ok (some d))
    ∧ (d.status ≠ "finished" → pollLoop (Except.ok d :: rest) = pollLoop rest) := by
  constructor
  · intro h
    simp [pollLoop, h]
  · intro h
    simp [pollLoop, h]

/-- C3, witness: the loop breaks on a `finished` response and continues
past a `partial` one. -/
theorem pollLoop_breaks_iff_finished_witness :
    pollLoop [Except.ok finishedData] = Except.ok (some finishedData)
    ∧ pollLoop [Except.ok partialData] = pollLoop [] :=
  ⟨(pollLoop_breaks_iff_finished finishedData []).1 (by decide),
   (pollLoop_breaks_iff_finished partialData []).2 (by decide)⟩

/-- C4: when the country phase produced at least one candidate, the
orchestrator enters the US-state phase iff the top-ranked candidate's
country code is `US`; for any other winning code it proceeds directly to
the city phase scoped to the winning country. -/
theorem orchestrate_state_iff_US (best : ProbeResult) (rest : List ProbeResult)
    (env : OrchestratorEnv) :
    (Phase.state ∈ (orchestrate (best :: rest) env).1 ↔ best.country = "US")
    ∧ (best.country ≠ "US" →
      orchestrate (best :: rest) env = ([Phase.city], env.cityResults best.country)) := by
  constructor
  · constructor
    · intro hmem
      by_contra h
      simp only [orchestrate, if_neg h] at hmem
      simp at hmem
    · intro h
      simp only [orchestrate, if_pos h]
      cases env.stateResults <;> simp
  · intro h
    simp only [orchestrate, if_neg h]

/-- C4, witness: with winning country `DE` the state phase is skipped and
the city phase runs scoped to `DE`. -/
theorem orchestrate_state_iff_US_witness :
    (Phase.state ∈ (orchestrate [prDE] envFix).1 ↔ prDE.country = "US")
    ∧ orchestrate [prDE] envFix = ([Phase.city], envFix.cityResults prDE.country) :=
  ⟨(orchestrate_state_iff_US prDE [] envFix).1,
   (orchestrate_state_iff_US prDE [] envFix).2 (by decide)⟩

/-- C5: when the US-state phase is entered (country winner `US`) and it
yields zero candidates, the orchestrator returns that phase's empty
result list — not the country-phase results; when it yields at least one
candidate, the city phase is entered, scoped by the state winner. -/
theorem orchestrate_state_phase_spec (best : ProbeResult) (rest : List ProbeResult)
    (env : OrchestratorEnv) (hUS : best.country = "US") :
    (env.stateResults = [] →
      orchestrate (best :: rest) env = ([Phase.state], []))
    ∧ (∀ s ss, env.stateResults = s :: ss →
      orchestrate (best :: rest) env
        = ([Phase.state, Phase.city], env.usCityResults s.state)) := by
  constructor
  · intro h
    simp only [orchestrate, if_pos hUS, h]
  · intro s ss h
    simp only [orchestrate, if_pos hUS, h]

/-- C5, witness: with winning country `US`, an empty state phase returns
the empty list, and a state phase won by Florida leads to the city phase
scoped by Florida. -/
theorem orchestrate_state_phase_spec_witness :
    orchestrate [prUS] envEmptyState = ([Phase.state], [])
    ∧ orchestrate [prUS] envFix
      = ([Phase.state, Phase.city], envFix.usCityResults prFL.state) :=
  ⟨(orchestrate_state_phase_spec prUS [] envEmptyState (by decide)).1 (by decide),
   (orchestrate_state_phase_spec prUS [] envFix (by decide)).2 prFL [] (by decide)⟩

theorem continentFinite_eq_nil_iff (outcomes : List (String × SubOutcome)) :
    continentFinite outcomes = [] ↔ ∀ o ∈ outcomes, continentAvgLatency o.2 = none := by
  rw [continentFinite, List.filterMap_eq_nil_iff]
  constructor
  · intro h o ho
    have h2 := h (o.1, continentAvgLatency o.2)
      (by rw [continentMeasurements]; exact List.mem_map.mpr ⟨o, ho, rfl⟩)
    simpa using h2
  · intro h m hm
    rw [continentMeasurements] at hm
    rcases List.mem_map.mp hm with ⟨o, ho, rfl⟩
    simp [h o ho]

theorem mem_continentFinite (outcomes : List (String × SubOutcome)) (c : String) (a : ℚ) :
    (c, a) ∈ continentFinite outcomes
      ↔ ∃ o ∈ outcomes, o.1 = c ∧ continentAvgLatency o.2 = some a := by
  rw [continentFinite]
  constructor
  · intro h
    rcases List.mem_filterMap.mp h with ⟨m, hm, hmap⟩
    rw [continentMeasurements] at hm
    rcases List.mem_map.mp hm with ⟨o, ho, rfl⟩
    rcases hopt : continentAvgLatency o.2 with _ | a2
    · rw [hopt] at hmap
      simp at hmap
    · rw [hopt] at hmap
      simp only [Option.map_some'] at hmap
      injection hmap with hpair
      injection hpair with h1 h2
      exact ⟨o, ho, h1, by rw [hopt, h2]⟩
  · intro hex
    rcases hex with ⟨o, ho, h1, h2⟩
    apply List.mem_filterMap.mpr
    refine ⟨(o.1, continentAvgLatency o.2), ?_, ?_⟩
    · rw [continentMeasurements]
      exact List.mem_map.mpr ⟨o, ho, rfl⟩
    · simp [h2, h1]

/-- C6: the continent phase throws
`'No successful measurements from any continent'` iff no continent yields
a usable latency sample (its average is `Infinity`); otherwise it returns
a continent carried by the outcomes whose average latency is minimal among
all finite averages; for a `results` outcome the average is `Infinity`
exactly when no item yields an extracted latency; and on the spec's
six-continent scenario it selects NA with average 57.23 ms. -/
theorem measureContinents_spec (outcomes : List (String × SubOutcome)) :
    (measureContinents outcomes
        = Except.error "No successful measurements from any continent"
      ↔ ∀ o ∈ outcomes, continentAvgLatency o.2 = none)
    ∧ (∀ c a, measureContinents outcomes = Except.ok (c, a) →
        (∃ o ∈ outcomes, o.1 = c ∧ continentAvgLatency o.2 = some a)
        ∧ ∀ o ∈ outcomes, ∀ a2, continentAvgLatency o.2 = some a2 → a ≤ a2)
    ∧ (∀ items, continentAvgLatency (SubOutcome.results items) = none
        ↔ items.filterMap (fun it => extractLatencyFromTraceroute it.result) = [])
    ∧ measureContinents contOutcomes = Except.ok ("NA", 5723/100) := by
  refine ⟨?_, ?_, ?_, ?_⟩
  · rcases hsort : sortByKey Prod.snd (continentFinite outcomes) with _ | ⟨b, rest⟩
    · have hnil : continentFinite outcomes = [] := (sortByKey_eq_nil_iff _ _).mp hsort
      constructor
      · intro _
        exact (continentFinite_eq_nil_iff outcomes).mp hnil
      · intro _
        rw [measureContinents, hsort]
    · constructor
      · intro h
        rw [measureContinents, hsort] at h
        simp at h
      · intro h
        have hnil := (continentFinite_eq_nil_iff outcomes).mpr h
        rw [hnil] at hsort
        simp [sortByKey] at hsort
  · intro c a h
    rcases hsort : sortByKey Prod.snd (continentFinite outcomes) with _ | ⟨b, rest⟩
    · rw [measureContinents, hsort] at h
      simp at h
    · rw [measureContinents, hsort] at h
      simp only [Except.ok.injEq] at h
      subst h
      constructor
      · refine (mem_continentFinite outcomes c a).mp ?_
        have hmem : (c, a) ∈ (c, a) :: rest := List.mem_cons_self _ _
        rw [← hsort] at hmem
        exact (mem_sortByKey _ _ _).mp hmem
      · intro o ho a2 h2
        have hmem : (o.1, a2) ∈ continentFinite outcomes :=
          (mem_continentFinite outcomes o.1 a2).mpr ⟨o, ho, rfl, h2⟩
        have hle := sortByKey_head_le Prod.snd (continentFinite outcomes)
          (c, a) rest hsort (o.1, a2) hmem
        simpa using hle
  · intro items
    rcases hlat : items.filterMap (fun it => extractLatencyFromTraceroute it.result)
      with _ | ⟨x, xs⟩
    · simp [continentAvgLatency, hlat]
    · simp [continentAvgLatency, hlat]
  · norm_num [measureContinents, contOutcomes, continentFinite, continentMeasurements,
      continentAvgLatency, mkItem, extractLatencyFromTraceroute, scanHopsRev,
      hopPositiveRtts, listAvg, listMin, sortByKey, insertByKey, List.filterMap,
      List.foldr]

/-- C6, witness: on `c2outcomes` the NA continent wins with average 5 ms,
NA indeed carries that average, and 5 ms is minimal among all finite
continent averages. -/
theorem measureContinents_spec_witness :
    measureContinents c2outcomes = Except.ok ("NA", 5)
    ∧ (∃ o ∈ c2outcomes, o.1 = "NA" ∧ continentAvgLatency o.2 = some 5)
    ∧ ∀ o ∈ c2outcomes, ∀ a2, continentAvgLatency o.2 = some a2 → (5 : ℚ) ≤ a2 :=
  ⟨by with_unfolding_all decide,
   ((measureContinents_spec c2outcomes).2.1 "NA" 5 (by with_unfolding_all decide)).1,
   ((measureContinents_spec c2outcomes).2.1 "NA" 5 (by with_unfolding_all decide)).2⟩

/-- C7: for the country-phase and city-phase aggregations, every produced
candidate comes from a non-empty latency group under its key with
`minRtt = min(group)`, `avgRtt = mean(group)` and `minRtt ≤ avgRtt`; keys
with zero usable observations never appear (every group is non-empty); and
the returned candidate lists are sorted non-decreasing by `minRtt`. -/
theorem aggregation_spec (items : List ResultItem) :
    ((countryCandidates items).Pairwise fun a b => a.minRtt ≤ b.minRtt)
    ∧ (∀ c ∈ countryCandidates items,
        ∃ lats, (c.country, lats) ∈ aggregate countryKey items ∧ lats ≠ []
          ∧ c.minRtt = listMin lats ∧ c.avgRtt = listAvg lats ∧ c.minRtt ≤ c.avgRtt)
    ∧ (∀ country state,
        ((cityCandidates country state items).Pairwise fun a b => a.minRtt ≤ b.minRtt)
        ∧ ∀ c ∈ cityCandidates country state items,
          ∃ lats, (c.city, lats) ∈ aggregate cityKey items ∧ lats ≠ []
            ∧ c.minRtt = listMin lats ∧ c.avgRtt = listAvg lats ∧ c.minRtt ≤ c.avgRtt) := by
  refine ⟨pairwise_sortByKey _ _, ?_, fun country state => ⟨pairwise_sortByKey _ _, ?_⟩⟩
  · intro c hc
    rw [countryCandidates, mem_sortByKey] at hc
    rcases List.mem_map.mp hc with ⟨g, hg, rfl⟩
    have hne := aggregate_groups_ne_nil countryKey items g hg
    exact ⟨g.2, by simpa using hg, hne, rfl, rfl, listMin_le_listAvg hne⟩
  · intro c hc
    rw [cityCandidates, mem_sortByKey] at hc
    rcases List.mem_map.mp hc with ⟨g, hg, rfl⟩
    have hne := aggregate_groups_ne_nil cityKey items g hg
    exact ⟨g.2, by simpa using hg, hne, rfl, rfl, listMin_le_listAvg hne⟩

/-- C7, witness: on `c7items` the winning candidate is US with
`minRtt = 2` and `avgRtt = 3`, produced from the non-empty group
`("US", [2, 4])`. -/
theorem aggregation_spec_witness :
    (⟨"US", "", none, 2, 3, 0, ""⟩ : ProbeResult) ∈ countryCandidates c7items
    ∧ ∃ lats, ("US", lats) ∈ aggregate countryKey c7items ∧ lats ≠ []
        ∧ (2 : ℚ) = listMin lats ∧ (3 : ℚ) = listAvg lats ∧ (2 : ℚ) ≤ (3 : ℚ) :=
  ⟨by with_unfolding_all decide,
   (aggregation_spec c7items).2.1 ⟨"US", "", none, 2, 3, 0, ""⟩
     (by with_unfolding_all decide)⟩

/-- C9: for every non-empty final candidate list, the printed confidence
classification of the winner (the first candidate) is `Very High` when its
`minRtt` is below 1 ms, `High` on [1, 5), `Medium` on [5, 20) and `Low`
otherwise. -/
theorem printResults_confidence_spec (best : ProbeResult) (rest : List ProbeResult) :
    (best.minRtt < 1 → printResultsConfidence (best :: rest) = some "Very High")
    ∧ (1 ≤ best.minRtt → best.minRtt < 5 →
      printResultsConfidence (best :: rest) = some "High")
    ∧ (5 ≤ best.minRtt → best.minRtt < 20 →
      printResultsConfidence (best :: rest) = some "Medium")
    ∧ (20 ≤ best.minRtt → printResultsConfidence (best :: rest) = some "Low") := by
  refine ⟨?_, ?_, ?_, ?_⟩
  · intro h
    simp [printResultsConfidence, confidenceLabel, h]
  · intro h1 h2
    simp [printResultsConfidence, confidenceLabel, not_lt.mpr h1, h2]
  · intro h1 h2
    have hn1 : ¬best.minRtt < 1 := not_lt.mpr (le_trans (by norm_num) h1)
    simp [printResultsConfidence, confidenceLabel, hn1, not_lt.mpr h1, h2]
  · intro h
    have hn1 : ¬best.minRtt < 1 := not_lt.mpr (le_trans (by norm_num) h)
    have hn5 : ¬best.minRtt < 5 := not_lt.mpr (le_trans (by norm_num) h)
    simp [printResultsConfidence, confidenceLabel, hn1, hn5, not_lt.mpr h]

/-- C9, witness: the spec's Miami list prints `Very High` (0.01 ms), and
winners at 3 ms, 5.80 ms and 25 ms print `High`, `Medium` and `Low`. -/
theorem printResults_confidence_spec_witness :
    printResultsConfidence [miamiR, wpbR, tampaR] = some "Very High"
    ∧ printResultsConfidence [prHigh] = some "High"
    ∧ printResultsConfidence [tampaR] = some "Medium"
    ∧ printResultsConfidence [prLow] = some "Low" :=
  ⟨(printResults_confidence_spec miamiR [wpbR, tampaR]).1 (by decide),
   (printResults_confidence_spec prHigh []).2.1 (by decide) (by decide),
   (printResults_confidence_spec tampaR []).2.2.1 (by decide) (by decide),
   (printResults_confidence_spec prLow []).2.2.2 (by decide)⟩

/-- C10: `analyzeResults` throws `'No measurement results to analyze'`
exactly when the input list is empty; for a non-empty list it returns the
country, city and `minRtt` of a candidate whose `minRtt` is minimal, with
confidence `high` below 1 ms, `medium` on [1, 10) and `low` otherwise — a
three-tier scale that differs from the presentation layer's four-tier
labels (at 3 ms: `medium` vs `High`; at 12 ms: `low` vs `Medium`). -/
theorem analyzeResults_spec (results : List ProbeResult) :
    (analyzeResults results = Except.error "No measurement results to analyze"
      ↔ results = [])
    ∧ (∀ g, analyzeResults results = Except.ok g →
        (∃ r ∈ results, r.minRtt = g.minRtt ∧ r.country = g.detectedCountry
          ∧ r.city = g.detectedCity)
        ∧ (∀ r ∈ results, g.minRtt ≤ r.minRtt)
        ∧ (g.minRtt < 1 → g.confidence = "high")
        ∧ (1 ≤ g.minRtt → g.minRtt < 10 → g.confidence = "medium")
        ∧ (10 ≤ g.minRtt → g.confidence = "low"))
    ∧ (analyzeConfidence 3 = "medium" ∧ confidenceLabel 3 = "High"
      ∧ analyzeConfidence 12 = "low" ∧ confidenceLabel 12 = "Medium") := by
  refine ⟨?_, ?_, by decide⟩
  · rcases hsort : sortByKey ProbeResult.minRtt results with _ | ⟨b, rest⟩
    · constructor
      · intro _
        exact (sortByKey_eq_nil_iff _ _).mp hsort
      · intro _
        rw [analyzeResults, hsort]
    · constructor
      · intro h
        rw [analyzeResults, hsort] at h
        simp at h
      · intro h
        subst h
        simp [sortByKey] at hsort
  · intro g h
    rcases hsort : sortByKey ProbeResult.minRtt results with _ | ⟨b, rest⟩
    · rw [analyzeResults, hsort] at h
      simp at h
    · rw [analyzeResults, hsort] at h
      simp only [Except.ok.injEq] at h
      subst h
      have hbmem : b ∈ results := by
        have hself : b ∈ b :: rest := List.mem_cons_self _ _
        rw [← hsort] at hself
        exact (mem_sortByKey _ _ _).mp hself
      refine ⟨⟨b, hbmem, rfl, rfl, rfl⟩, ?_, ?_, ?_, ?_⟩
      · intro r hr
        exact sortByKey_head_le ProbeResult.minRtt results b rest hsort r hr
      · intro h1
        simp [analyzeConfidence, h1]
      · intro h1 h2
        simp [analyzeConfidence, not_lt.mpr h1, h2]
      · intro h1
        have hn1 : ¬b.minRtt < 1 := not_lt.mpr (le_trans (by norm_num) h1)
        simp [analyzeConfidence, hn1, not_lt.mpr h1]

/-- C10, witness: on a two-candidate list the 3 ms Boston candidate wins
with confidence `medium`, is a member of the input, and its `minRtt` is
minimal. -/
theorem analyzeResults_spec_witness :
    analyzeResults [prLow, prHigh]
      = Except.ok ⟨"US", "Boston", "medium", 3, [prHigh, prLow]⟩
    ∧ (∃ r ∈ [prLow, prHigh], r.minRtt = (3 : ℚ) ∧ r.country = "US"
        ∧ r.city = "Boston")
    ∧ (∀ r ∈ [prLow, prHigh], (3 : ℚ) ≤ r.minRtt) :=
  ⟨by decide,
   ((analyzeResults_spec [prLow, prHigh]).2.1
     ⟨"US", "Boston", "medium", 3, [prHigh, prLow]⟩ (by decide)).1,
   ((analyzeResults_spec [prLow, prHigh]).2.1
     ⟨"US", "Boston", "medium", 3, [prHigh, prLow]⟩ (by decide)).2.1⟩

end GeoTool
